import Mathlib

/-!
# Image build orchestration (`cluster/calcium/build.go`)

A shallow embedding of the build orchestration of `cluster/calcium/build.go`.

Background functions write to a Go channel, ask the node's engine to push
images and launch detached cleanup jobs.  Each such function is embedded as the
list of events it produces, in program order, together with the way it ends
(normal return or run-time panic).  The channel carries pointers: a send is
traced with the content of the message at the time of the send, and a task also
tells what the messages it sent hold once it has ended, since `pushImage` writes
to a message after having sent it.  Logging is traced only in the cleanup
worker, where it is all that a failure leads to; contexts and time-outs are not
modelled.  `errors.WithStack` and `logger.Err` hand back the error they are
given (the latter after logging it), so neither appears.
-/

namespace CalciumBuild

/-! ## Data model -/

/-- Structured error detail of a build message (`ErrorDetail` of
`types.BuildImageMessage`): a code and a message. -/
structure ErrorDetail where
  Code : Int := 0
  Message : String := ""
deriving DecidableEq, Repr

/-- Unit of the output stream, `types.BuildImageMessage`.  The declaration is
not among the source files; the fields are those `build.go` reads and writes,
which are the ones the spec lists for a build message.  Every field defaults to
Go's zero value, so that a structure instance reads like the composite literal
of the source. -/
structure BuildImageMessage where
  ID : String := ""
  Status : String := ""
  Progress : String := ""
  Error : String := ""
  Stream : String := ""
  ErrorDetail : ErrorDetail := {}
deriving DecidableEq, Repr

/-- Error returned by `decoder.Decode`: `io.EOF`, `context.Canceled`,
`context.DeadlineExceeded`, or any other failure (malformed input, transport
failure) with its text. -/
inductive DecodeError
  | EOF
  | Canceled
  | DeadlineExceeded
  | other (text : String)
deriving DecidableEq, Repr

/-- Text of a decode error, `err.Error()`; the three sentinel texts are those of
Go's `io` and `context` packages. -/
def DecodeError.Error : DecodeError → String
  | .EOF => "EOF"
  | .Canceled => "context canceled"
  | .DeadlineExceeded => "context deadline exceeded"
  | .other text => text

/-- A progress stream (`io.ReadCloser`) as a JSON decoder reads it: the messages
that decode successfully, in order, and the error of the first `Decode` call
that fails.  The code never decodes again after an error. -/
structure ProgressStream where
  messages : List BuildImageMessage
  err : DecodeError
deriving DecidableEq, Repr

/-- What a background function does that the outside can observe. -/
inductive Event
  /-- Send on the output channel, `ch <- message`, with the content of the
  message at the time of the send. -/
  | send (message : BuildImageMessage)
  /-- Push request to the engine, `node.Engine.ImagePush(ctx, tag)`. -/
  | imagePush (tag : String)
  /-- Launch of the detached cleanup job,
  `utils.SentryGo(func() { cleanupNodeImages(ctx, node, ids, ttl) })`. -/
  | cleanup (ids : List String)
  /-- Deferred `resp.Close()` of the build progress stream. -/
  | closeResp
  /-- Deferred `close(ch)` of the output channel. -/
  | close
deriving DecidableEq, Repr

/-- Behaviour of a function run in the background: its events in program order
(deferred calls included); the messages it sent, in the order of the sends, as
they are once the function has ended (what the receiver, who holds the pointers,
finds in them from then on); and whether it ended by a run-time panic. -/
structure Task where
  events : List Event
  delivered : List BuildImageMessage
  panicked : Bool
deriving DecidableEq, Repr

/-- Answers of a node's engine (`node.Engine`).  The engine is an external,
stateful collaborator: `ImagePush` and `ImageRemove` receive as first argument
the number of earlier requests of the same kind in the same run, so that two
requests for the same tag or identifier may be answered differently.  A failure
is represented by its text (`err.Error()`).  The interface declaration is not
among the source files: the arguments of `ImageRemove` after the count are, in
the order of the spec ("remove an image by id (force flag, prune flag)"), the
identifier, the force flag and the prune flag; the argument of
`ImageBuildCachePrune` is its `all` flag. -/
structure Engine where
  BuildRefs : String → List String → List String
  ImageBuild : String → List String → Except String ProgressStream
  ImagePush : Nat → String → Except String ProgressStream
  ImageBuildFromExist : String → String → String → Except String String
  ImageRemove : Nat → String → Bool → Bool → Except String (List String)
  ImageBuildCachePrune : Bool → Except String Nat

/-- A cluster node, `types.Node`: identity and engine handle. -/
structure Node where
  Podname : String
  Name : String
  Engine : Engine

/-! ## Stream relay -/

/-- The messages sent on the output channel, in order, each with its content at
the time of the send. -/
def sent : List Event → List BuildImageMessage
  | [] => []
  | .send message :: rest => message :: sent rest
  | _ :: rest => sent rest

/-- Modelled from the spec: `processBuildImageStream` is not among the source
files; the relay forwards "every message from that tag's push stream to the
output channel, in order", whether the stream ends successfully or not. -/
def processBuildImageStream (rc : ProgressStream) : List BuildImageMessage :=
  rc.messages

/-- How the decode loop of `pushImage` is left. -/
inductive Decoded
  /-- By `break`, with the value of `lastMessage`: nil (`none`) or the address
  of a message. -/
  | broke (lastMessage : Option Nat)
  /-- By `return` (decode failure other than end of stream or cancellation). -/
  | returned
  /-- By a run-time panic on the dereference of `lastMessage`. -/
  | fault
deriving DecidableEq, Repr

/-- Result of the decode loop of `pushImage`: the sends, with the content of
each message at the time of its send; the addresses sent, in the same order; the
message store as the loop leaves it; and the way the loop is left. -/
structure Decoding where
  events : List Event
  pointers : List Nat
  heap : List BuildImageMessage
  outcome : Decoded
deriving DecidableEq, Repr

/-- The decode loop of `pushImage` (`for { ... }`), from the messages still to
decode, the message store and the current `lastMessage`.  The store lists the
messages allocated so far, a pointer is a position in it.  An iteration that
decodes allocates a message (`message := &types.BuildImageMessage{}`, filled by
`Decode`), sends its address and keeps that address in `lastMessage`.  The
cancellation branch writes through `lastMessage`, that is to the message sent
last.  A pointer outside the store does not arise; its dereference is taken as a
fault. -/
def decodeLoop (err : DecodeError) :
    List BuildImageMessage → List BuildImageMessage → Option Nat → Decoding
  | message :: rest, heap, _ =>
    let r := decodeLoop err rest (heap ++ [message]) (some heap.length)
    { r with events := Event.send message :: r.events, pointers := heap.length :: r.pointers }
  | [], heap, lastMessage =>
    match err with
    | .EOF => { events := [], pointers := [], heap := heap, outcome := .broke lastMessage }
    | .Canceled | .DeadlineExceeded =>
      match lastMessage with
      | none => { events := [], pointers := [], heap := heap, outcome := .fault }
      | some pointer =>
        match heap[pointer]? with
        | none => { events := [], pointers := [], heap := heap, outcome := .fault }
        | some m =>
          { events := [], pointers := [],
            heap := heap.set pointer { m with
              ErrorDetail := { Code := -1, Message := err.Error }
              Error := err.Error },
            outcome := .broke lastMessage }
    | .other _ => { events := [], pointers := [], heap := heap, outcome := .returned }

/-- The synthetic completion message of a tag. -/
def finishedMessage (tag : String) : BuildImageMessage :=
  { Stream := "finished " ++ tag ++ "\n", Status := "finished", Progress := tag }

/-- The push loop of `pushImage` (`for i := range tags`), from index `i` on. -/
def pushLoop (engine : Engine) : Nat → List String → List Event
  | _, [] => []
  | i, tag :: rest =>
    Event.imagePush tag ::
      ((match engine.ImagePush i tag with
        | .error err => [Event.send { Error := err }]
        | .ok rc =>
          (processBuildImageStream rc).map Event.send ++ [Event.send (finishedMessage tag)])
        ++ pushLoop engine (i + 1) rest)

/-- The function `pushImage` hands to `withImageBuiltChannel`.  The messages of
the decode phase are delivered as the store holds them at the end; the messages
of the push phase are not written to after their send. -/
def pushImageTask (resp : ProgressStream) (node : Node) (tags : List String) : Task :=
  let r := decodeLoop resp.err resp.messages [] none
  let decoded := r.pointers.filterMap (fun pointer => r.heap[pointer]?)
  match r.outcome with
  | .returned => { events := r.events ++ [.closeResp], delivered := decoded, panicked := false }
  | .fault => { events := r.events ++ [.closeResp], delivered := decoded, panicked := true }
  | .broke none => { events := r.events ++ [.closeResp], delivered := decoded, panicked := true }
  | .broke (some pointer) =>
    match r.heap[pointer]? with
    | none => { events := r.events ++ [.closeResp], delivered := decoded, panicked := true }
    | some lastMessage =>
      if lastMessage.Error ≠ "" then
        { events := r.events ++ [.closeResp], delivered := decoded, panicked := false }
      else
        { events := r.events ++ pushLoop node.Engine 0 tags ++ [.cleanup tags, .closeResp],
          delivered := decoded ++ sent (pushLoop node.Engine 0 tags),
          panicked := false }

/-- What the reader of a channel made by `withImageBuiltChannel` can observe:
the events of the background function up to the close of the channel, the
messages received as they are once the channel is closed, and whether a panic
of that function was recovered. -/
structure Channel where
  events : List Event
  delivered : List BuildImageMessage
  recovered : Bool
deriving DecidableEq, Repr

/-- Modelled from the spec: `utils.SentryGo` is not among the source files; it
"launches a function ... on a separate control path" and "recovers/report any
panic so a failing build never crashes the host process". -/
def SentryGo (f : Task) : Channel :=
  { events := f.events, delivered := f.delivered, recovered := f.panicked }

/-- `withImageBuiltChannel`: runs `f` in the background and closes the channel
when `f` returns or panics (`defer close(ch)`). -/
def withImageBuiltChannel (f : Task) : Channel :=
  SentryGo { events := f.events ++ [.close], delivered := f.delivered, panicked := f.panicked }

/-- `pushImage`: relays the build progress, then pushes every tag. -/
def pushImage (resp : ProgressStream) (node : Node) (tags : List String) :
    Except String Channel :=
  .ok (withImageBuiltChannel (pushImageTask resp node tags))

/-! ## Exist-from-workload build -/

/-- `buildErrMsg`: the message that reports a failure, with the failure text in
both the error field and the detail message. -/
def buildErrMsg (err : String) : BuildImageMessage :=
  let msg : BuildImageMessage := { Error := err }
  { msg with ErrorDetail := { msg.ErrorDetail with Message := err } }

/-- The function `buildFromExist` hands to `withImageBuiltChannel`;
`getWorkloadNode` is `c.getWorkloadNode`, which resolves the node of a
workload.  The message sent is not written to after its send. -/
def buildFromExistTask (getWorkloadNode : String → Except String Node)
    (ref existID user : String) : Task :=
  match getWorkloadNode existID with
  | .error err =>
    { events := [.send (buildErrMsg err)], delivered := [buildErrMsg err], panicked := false }
  | .ok node =>
    match node.Engine.ImageBuildFromExist existID ref user with
    | .error err =>
      { events := [.send (buildErrMsg err)], delivered := [buildErrMsg err],
        panicked := false }
    | .ok imageID =>
      { events := [.cleanup [imageID], .send { ID := imageID }],
        delivered := [{ ID := imageID }], panicked := false }

/-- `buildFromExist`: derives an image from a running workload. -/
def buildFromExist (getWorkloadNode : String → Except String Node)
    (ref existID user : String) : Except String Channel :=
  .ok (withImageBuiltChannel (buildFromExistTask getWorkloadNode ref existID user))

/-! ## Cleanup worker -/

/-- What the cleanup worker does: its requests to the engine and its log
lines. -/
inductive CleanupEvent
  /-- Request `node.Engine.ImageRemove(ctx, id, force, prune)`. -/
  | imageRemove (id : String) (force prune : Bool)
  /-- Log line "Remove image error". -/
  | logRemoveError (text : String)
  /-- Request `node.Engine.ImageBuildCachePrune(ctx, all)`. -/
  | imageBuildCachePrune (all : Bool)
  /-- Log line "Remove build image cache error". -/
  | logPruneError (text : String)
  /-- Log line "Clean cached image and release space". -/
  | logReclaimed (spaceReclaimed : Nat)
deriving DecidableEq, Repr

/-- The removal loop of `cleanupNodeImages` (`for _, id := range ids`), from the
`i`-th removal request on. -/
def removeLoop (engine : Engine) : Nat → List String → List CleanupEvent
  | _, [] => []
  | i, id :: rest =>
    CleanupEvent.imageRemove id false true ::
      ((match engine.ImageRemove i id false true with
        | .error err => [CleanupEvent.logRemoveError err]
        | .ok _ => [])
        ++ removeLoop engine (i + 1) rest)

/-- `cleanupNodeImages`: removes the images, then prunes the build cache.  The
Go function has no result; the model returns what it did. -/
def cleanupNodeImages (node : Node) (ids : List String) : List CleanupEvent :=
  removeLoop node.Engine 0 ids ++
    (CleanupEvent.imageBuildCachePrune true ::
      (match node.Engine.ImageBuildCachePrune true with
        | .error err => [CleanupEvent.logPruneError err]
        | .ok spaceReclaimed => [CleanupEvent.logReclaimed spaceReclaimed]))

/-! ## Node selection and dispatch -/

/-- Errors `BuildImage` returns synchronously: the sentinels of package `types`,
the "unknown build type" error, and failures reported by a collaborator. -/
inductive BuildError
  | ErrSCMNotSet
  | ErrNoBuildPod
  | ErrInsufficientNodes
  | unknownBuildType
  | external (text : String)
deriving DecidableEq, Repr

/-- Build method of a request, `types.BuildMethod`. -/
inductive BuildMethod
  | BuildFromSCM
  | BuildFromRaw
  | BuildFromExist
  | unknown (code : Int)
deriving DecidableEq, Repr

/-- Handle of the configured source-control capability (`c.source`); this file
only tests it for nil and passes it on. -/
structure Source where
  handle : Nat
deriving DecidableEq, Repr

/-- Build request, `types.BuildOptions`; `Builds` stands for the source-control
build parameters, which are passed on untouched. -/
structure BuildOptions where
  Name : String
  User : String
  UID : Int
  Tags : List String
  BuildMethod : BuildMethod
  Builds : String
  Tar : String
  ExistID : String

/-- `enginetypes.BuildContentOptions`. -/
structure BuildContentOptions where
  User : String
  UID : Int
  Builds : String

/-- The part of `Calcium` and of its collaborators that the build uses:
`source` is `c.source` (`none` for nil), `BuildPod` is
`c.config.Docker.BuildPod`, `MaxIdleNode` is `c.scheduler.MaxIdleNode`, and
`BuildContent` is `node.Engine.BuildContent`, which answers the path of the
context directory and either the content or a failure. -/
structure Calcium where
  source : Option Source
  BuildPod : String
  ListPodNodes : String → Option (List (String × String)) → Bool →
    Except BuildError (List Node)
  MaxIdleNode : List Node → Except BuildError Node
  getWorkloadNode : String → Except String Node
  BuildContent : Node → Source → BuildContentOptions → String × Except String String

/-- `selectBuildNode`: the most idle node of the configured build pod. -/
def selectBuildNode (c : Calcium) : Except BuildError Node :=
  if c.BuildPod = "" then .error .ErrNoBuildPod
  else
    match c.ListPodNodes c.BuildPod none false with
    | .error err => .error err
    | .ok nodes =>
      if nodes.length = 0 then .error .ErrInsufficientNodes
      else c.MaxIdleNode nodes

/-- `buildFromContent`: builds from a raw context, then relays and pushes. -/
def buildFromContent (node : Node) (refs : List String) (content : String) :
    Except BuildError Channel :=
  match node.Engine.ImageBuild content refs with
  | .error err => .error (.external err)
  | .ok resp =>
    match pushImage resp node refs with
    | .error err => .error (.external err)
    | .ok ch => .ok ch

/-- `buildFromSCM`: materialises the build context, then builds from it.  The
deferred `os.RemoveAll(path)` is not traced.  `source` is `c.source`, known to
be set when this is reached. -/
def buildFromSCM (c : Calcium) (source : Source) (node : Node) (refs : List String)
    (opts : BuildOptions) : Except BuildError Channel :=
  let buildContentOpts : BuildContentOptions :=
    { User := opts.User, UID := opts.UID, Builds := opts.Builds }
  match (c.BuildContent node source buildContentOpts).2 with
  | .error err => .error (.external err)
  | .ok content => buildFromContent node refs content

/-- `BuildImage`: `none` is a run-time panic (`refs[0]` on an empty ref list),
`some (.error err)` a returned error with no channel, `some (.ok ch)` a
returned channel. -/
def BuildImage (c : Calcium) (opts : BuildOptions) : Option (Except BuildError Channel) :=
  match c.source with
  | none => some (.error .ErrSCMNotSet)
  | some source =>
    match selectBuildNode c with
    | .error err => some (.error err)
    | .ok node =>
      let refs := node.Engine.BuildRefs opts.Name opts.Tags
      match opts.BuildMethod with
      | .BuildFromSCM => some (buildFromSCM c source node refs opts)
      | .BuildFromRaw => some (buildFromContent node refs opts.Tar)
      | .BuildFromExist =>
        match refs with
        | [] => none
        | ref :: _ =>
          match buildFromExist c.getWorkloadNode ref opts.ExistID opts.User with
          | .error err => some (.error (.external err))
          | .ok ch => some (.ok ch)
      | .unknown _ => some (.error .unknownBuildType)

/-! ## Observations on a trace -/

/-- The tags of the push requests issued, in order. -/
def pushRequests : List Event → List String
  | [] => []
  | .imagePush tag :: rest => tag :: pushRequests rest
  | _ :: rest => pushRequests rest

/-- The cleanup jobs launched, in order, each by its identifiers. -/
def cleanups : List Event → List (List String)
  | [] => []
  | .cleanup ids :: rest => ids :: cleanups rest
  | _ :: rest => cleanups rest

/-- The requests to the engine in a cleanup trace (log lines dropped). -/
def engineRequests : List CleanupEvent → List CleanupEvent
  | [] => []
  | .imageRemove id force prune :: rest => .imageRemove id force prune :: engineRequests rest
  | .imageBuildCachePrune all :: rest => .imageBuildCachePrune all :: engineRequests rest
  | _ :: rest => engineRequests rest

/-! ## Sample collaborators -/

/-- The progress stream a push of `tag` yields with the sample engines: one
message, then end of stream. -/
def samplePushStream (tag : String) : ProgressStream :=
  { messages := [{ Status := "Pushed", Progress := tag }], err := .EOF }

/-- An engine that grants every request. -/
def acceptingEngine : Engine where
  BuildRefs := fun name tags => tags.map (fun tag => name ++ ":" ++ tag)
  ImageBuild := fun _ _ => .ok { messages := [{ Stream := "step1" }], err := .EOF }
  ImagePush := fun _ tag => .ok (samplePushStream tag)
  ImageBuildFromExist := fun _ ref _ => .ok ("sha256:" ++ ref)
  ImageRemove := fun _ id _ _ => .ok [id]
  ImageBuildCachePrune := fun _ => .ok 42

/-- An engine that refuses every request. -/
def refusingEngine : Engine where
  BuildRefs := fun name tags => tags.map (fun tag => name ++ ":" ++ tag)
  ImageBuild := fun _ _ => .error "denied"
  ImagePush := fun _ _ => .error "denied"
  ImageBuildFromExist := fun _ _ _ => .error "denied"
  ImageRemove := fun _ _ _ _ => .error "denied"
  ImageBuildCachePrune := fun _ => .error "denied"

/-- An engine that refuses the first push request and grants the later ones. -/
def flakyEngine : Engine where
  BuildRefs := fun name tags => tags.map (fun tag => name ++ ":" ++ tag)
  ImageBuild := fun _ _ => .ok { messages := [{ Stream := "step1" }], err := .EOF }
  ImagePush := fun i tag => if i = 0 then .error "denied" else .ok (samplePushStream tag)
  ImageBuildFromExist := fun _ ref _ => .ok ("sha256:" ++ ref)
  ImageRemove := fun i id _ _ => if i = 0 then .error "denied" else .ok [id]
  ImageBuildCachePrune := fun _ => .ok 42

/-- A node with the accepting engine. -/
def acceptingNode : Node := { Podname := "build", Name := "n1", Engine := acceptingEngine }

/-- A node with the refusing engine. -/
def refusingNode : Node := { Podname := "build", Name := "n2", Engine := refusingEngine }

/-- A node with the flaky engine. -/
def flakyNode : Node := { Podname := "build", Name := "n3", Engine := flakyEngine }

/-- A build progress stream of two messages and a clean end, the build having
succeeded. -/
def goodBuild : ProgressStream :=
  { messages := [{ Stream := "step1" }, { Stream := "step2" }], err := .EOF }

/-- A build progress stream whose last message reports a build failure. -/
def failedBuild : ProgressStream :=
  { messages := [{ Stream := "step1" }, { Error := "exit 1" }], err := .EOF }

/-- A `Calcium` with the given source-control capability and build pod, whose
build pod has the accepting node and whose workloads run on it. -/
def sampleCalcium (source : Option Source) (buildPod : String) : Calcium where
  source := source
  BuildPod := buildPod
  ListPodNodes := fun _ _ _ => .ok [acceptingNode]
  MaxIdleNode := fun nodes =>
    match nodes with
    | [] => .error .ErrInsufficientNodes
    | node :: _ => .ok node
  getWorkloadNode := fun _ => .ok acceptingNode
  BuildContent := fun _ _ _ => ("/tmp/build", .ok "context")

/-- A request to build from a raw context. -/
def rawRequest : BuildOptions :=
  { Name := "app", User := "root", UID := 0, Tags := ["v1"], BuildMethod := .BuildFromRaw,
    Builds := "", Tar := "context", ExistID := "" }

/-! ## Lemmas on the loops -/

theorem delivered_store (l : List BuildImageMessage) :
    ∀ pre : List BuildImageMessage,
      (List.range' pre.length l.length).filterMap (fun pointer => (pre ++ l)[pointer]?) = l := by
  induction l with
  | nil => intro pre; simp
  | cons a t ih =>
    intro pre
    have h := ih (pre ++ [a])
    simp only [List.length_append, List.length_singleton, List.append_assoc,
      List.singleton_append] at h
    simp [List.range'_succ, h, List.getElem_append_right]

theorem decodeLoop_eof (m : BuildImageMessage) (front : List BuildImageMessage) :
    ∀ (heap : List BuildImageMessage) (lastMessage : Option Nat),
      decodeLoop .EOF (front ++ [m]) heap lastMessage =
        { events := (front ++ [m]).map Event.send,
          pointers := List.range' heap.length (front.length + 1),
          heap := heap ++ (front ++ [m]),
          outcome := .broke (some (heap.length + front.length)) } := by
  induction front with
  | nil => intro heap lastMessage; simp [decodeLoop]
  | cons a t ih =>
    intro heap lastMessage
    have h := ih (heap ++ [a]) (some heap.length)
    rw [List.cons_append, decodeLoop, h]
    simp [List.range'_succ, Nat.add_assoc, Nat.add_comm 1]

theorem exists_front_last (l : List BuildImageMessage) (hne : l ≠ []) :
    ∃ (front : List BuildImageMessage) (m : BuildImageMessage),
      l = front ++ [m] ∧ l.getLast hne = m ∧ l.dropLast = front :=
  ⟨l.dropLast, l.getLast hne, (List.dropLast_append_getLast hne).symm, rfl, rfl⟩

/-- The relay task on a stream of at least one message that ends cleanly. -/
theorem pushImageTask_eof (m : BuildImageMessage) (front : List BuildImageMessage)
    (node : Node) (tags : List String) :
    pushImageTask { messages := front ++ [m], err := .EOF } node tags =
      if m.Error ≠ "" then
        { events := (front ++ [m]).map Event.send ++ [.closeResp],
          delivered := front ++ [m], panicked := false }
      else
        { events := (front ++ [m]).map Event.send ++ pushLoop node.Engine 0 tags ++
            [.cleanup tags, .closeResp],
          delivered := front ++ [m] ++ sent (pushLoop node.Engine 0 tags),
          panicked := false } := by
  have hd := delivered_store (front ++ [m]) []
  simp only [List.length_nil, List.nil_append, List.length_append, List.length_singleton] at hd
  simp only [pushImageTask, decodeLoop_eof, List.length_nil, List.nil_append, Nat.zero_add,
    List.getElem?_concat_length, hd]

theorem pushLoop_append (engine : Engine) (i : Nat) (front back : List String) :
    pushLoop engine i (front ++ back) =
      pushLoop engine i front ++ pushLoop engine (i + front.length) back := by
  induction front generalizing i with
  | nil => simp [pushLoop]
  | cons tag rest ih =>
    simp [pushLoop, ih, Nat.add_assoc, Nat.add_comm 1]

theorem pushRequests_append (front back : List Event) :
    pushRequests (front ++ back) = pushRequests front ++ pushRequests back := by
  induction front with
  | nil => rfl
  | cons e rest ih => cases e <;> simp [pushRequests, ih]

theorem pushRequests_map_send (messages : List BuildImageMessage) :
    pushRequests (messages.map Event.send) = [] := by
  induction messages with
  | nil => rfl
  | cons message rest ih => simpa [pushRequests] using ih

theorem pushRequests_pushLoop (engine : Engine) (i : Nat) (tags : List String) :
    pushRequests (pushLoop engine i tags) = tags := by
  induction tags generalizing i with
  | nil => rfl
  | cons tag rest ih =>
    cases h : engine.ImagePush i tag <;>
      simp [pushLoop, h, pushRequests, pushRequests_append, pushRequests_map_send, ih]

/-- The trace of `pushImage` on a stream that reaches the push phase. -/
theorem pushImage_push_phase (resp : ProgressStream) (node : Node) (tags : List String)
    (hne : resp.messages ≠ []) (heof : resp.err = .EOF)
    (hlast : (resp.messages.getLast hne).Error = "") :
    pushImage resp node tags = .ok
      { events := resp.messages.map Event.send ++ pushLoop node.Engine 0 tags ++
          [.cleanup tags, .closeResp, .close],
        delivered := resp.messages ++ sent (pushLoop node.Engine 0 tags),
        recovered := false } := by
  obtain ⟨messages, err⟩ := resp
  obtain ⟨front, m, hsplit, hm, _⟩ := exists_front_last messages hne
  simp only at heof hlast
  rw [hm] at hlast
  subst heof
  subst hsplit
  simp [pushImage, withImageBuiltChannel, SentryGo, pushImageTask_eof, hlast]

/-- The push loop when every push request starts. -/
theorem pushLoop_all_started (engine : Engine) (tags : List String) :
    ∀ (i : Nat) (streams : List ProgressStream), streams.length = tags.length →
      (∀ (j : Nat) (tag : String) (p : ProgressStream),
        tags[j]? = some tag → streams[j]? = some p → engine.ImagePush (i + j) tag = .ok p) →
      pushLoop engine i tags =
        (List.zipWith (fun tag p => Event.imagePush tag ::
          (p.messages.map Event.send ++
            [Event.send { Stream := "finished " ++ tag ++ "\n", Status := "finished",
                          Progress := tag }])) tags streams).flatten := by
  induction tags with
  | nil => intro i streams _ _; simp [pushLoop]
  | cons tag rest ih =>
    intro i streams hlen hpush
    cases streams with
    | nil => simp at hlen
    | cons p ps =>
      have h0 : engine.ImagePush i tag = .ok p := by
        simpa using hpush 0 tag p (by simp) (by simp)
      have hrest := ih (i + 1) ps (by simpa using hlen) (by
        intro j t q ht hq
        have := hpush (j + 1) t q (by simpa using ht) (by simpa using hq)
        simpa [Nat.add_assoc, Nat.add_comm 1] using this)
      simp [pushLoop, h0, hrest, processBuildImageStream, finishedMessage]

theorem sent_append (front back : List Event) :
    sent (front ++ back) = sent front ++ sent back := by
  induction front with
  | nil => rfl
  | cons e rest ih => cases e <;> simp [sent, ih]

theorem sent_map_send (messages : List BuildImageMessage) :
    sent (messages.map Event.send) = messages := by
  induction messages with
  | nil => rfl
  | cons message rest ih => simpa [sent] using ih

theorem cleanups_append (front back : List Event) :
    cleanups (front ++ back) = cleanups front ++ cleanups back := by
  induction front with
  | nil => rfl
  | cons e rest ih => cases e <;> simp [cleanups, ih]

theorem cleanups_map_send (messages : List BuildImageMessage) :
    cleanups (messages.map Event.send) = [] := by
  induction messages with
  | nil => rfl
  | cons message rest ih => simpa [cleanups] using ih

theorem sent_started_segments (finished : String → BuildImageMessage) (tags : List String) :
    ∀ streams : List ProgressStream,
      sent (List.zipWith (fun tag p => Event.imagePush tag ::
          (p.messages.map Event.send ++ [Event.send (finished tag)])) tags streams).flatten =
        (List.zipWith (fun tag p => p.messages ++ [finished tag]) tags streams).flatten := by
  induction tags with
  | nil => intro streams; simp [sent]
  | cons tag rest ih =>
    intro streams
    cases streams with
    | nil => simp [sent]
    | cons p ps => simp [sent, sent_append, sent_map_send, ih]

theorem drop_of_getElem? (tags : List String) (i : Nat) (tag : String)
    (htag : tags[i]? = some tag) : tags.drop i = tag :: tags.drop (i + 1) := by
  obtain ⟨hi, ha⟩ := List.getElem?_eq_some.1 htag
  rw [List.drop_eq_getElem_cons hi, ha]

/-- The push loop, cut at the request for the tag of index `i`. -/
theorem pushLoop_at (engine : Engine) (tags : List String) (i : Nat) (tag : String)
    (htag : tags[i]? = some tag) :
    pushLoop engine 0 tags =
      pushLoop engine 0 (tags.take i) ++
        Event.imagePush tag ::
          ((match engine.ImagePush i tag with
            | .error err => [Event.send { Error := err }]
            | .ok rc =>
              (processBuildImageStream rc).map Event.send ++
                [Event.send (finishedMessage tag)])
            ++ pushLoop engine (i + 1) (tags.drop (i + 1))) := by
  obtain ⟨hi, _⟩ := List.getElem?_eq_some.1 htag
  have hsplit : tags = tags.take i ++ tag :: tags.drop (i + 1) := by
    rw [← drop_of_getElem? tags i tag htag, List.take_append_drop]
  have hlen : (tags.take i).length = i := List.length_take_of_le (Nat.le_of_lt hi)
  conv_lhs => rw [hsplit]
  rw [pushLoop_append, hlen, Nat.zero_add]
  rfl

theorem pushLoop_head? (engine : Engine) (i : Nat) (tags : List String) :
    (pushLoop engine i tags).head? = tags.head?.map Event.imagePush := by
  cases tags <;> rfl

/-- The push loop as one segment per tag. -/
theorem pushLoop_segments (engine : Engine) (tags : List String) :
    ∀ k : Nat, ∃ segments : List (List Event),
      pushLoop engine k tags = segments.flatten ∧ segments.length = tags.length ∧
      ∀ (i : Nat) (tag : String), tags[i]? = some tag →
        (∀ p : ProgressStream, engine.ImagePush (k + i) tag = .ok p →
          segments[i]? = some (Event.imagePush tag ::
            (p.messages.map Event.send ++ [Event.send (finishedMessage tag)]))) ∧
        (∀ err : String, engine.ImagePush (k + i) tag = .error err →
          segments[i]? = some [Event.imagePush tag, Event.send { Error := err }]) := by
  induction tags with
  | nil => intro k; exact ⟨[], rfl, rfl, by simp⟩
  | cons first rest ih =>
    intro k
    obtain ⟨segs, hflat, hlen, hseg⟩ := ih (k + 1)
    refine ⟨(Event.imagePush first ::
      (match engine.ImagePush k first with
        | .error err => [Event.send { Error := err }]
        | .ok rc =>
          (processBuildImageStream rc).map Event.send ++
            [Event.send (finishedMessage first)])) :: segs, ?_, by simp [hlen], ?_⟩
    · simp [pushLoop, hflat]
    · intro i tag htag
      cases i with
      | zero =>
        simp at htag
        subst htag
        constructor
        · intro p hp
          simp at hp
          simp [hp, processBuildImageStream]
        · intro err herr
          simp at herr
          simp [herr]
      | succ j =>
        have h := hseg j tag (by simpa using htag)
        have hidx : k + 1 + j = k + (j + 1) := by omega
        rw [hidx] at h
        simpa using h

theorem engineRequests_append (front back : List CleanupEvent) :
    engineRequests (front ++ back) = engineRequests front ++ engineRequests back := by
  induction front with
  | nil => rfl
  | cons e rest ih => cases e <;> simp [engineRequests, ih]

theorem engineRequests_removeLoop (engine : Engine) (i : Nat) (ids : List String) :
    engineRequests (removeLoop engine i ids) =
      ids.map (fun id => CleanupEvent.imageRemove id false true) := by
  induction ids generalizing i with
  | nil => rfl
  | cons id rest ih =>
    cases h : engine.ImageRemove i id false true <;>
      simp [removeLoop, h, engineRequests, ih]

/-! ## The claims -/

/-- C1: when the build progress stream decodes to at least one message, ends
cleanly and its last message has an empty error field, and every push request
starts (request `i`, for tag `i`, answering stream `i`), the trace of `pushImage`
is: the decoded messages in order; then for each tag in input order its push
request, the messages of its push stream in order and one message with status
"finished" and progress equal to the tag; then the cleanup job and the close.
The messages sent are the decoded ones followed, tag by tag, by the push
messages and the tag's finished message. -/
theorem pushImage_relays_build_then_each_push (resp : ProgressStream) (node : Node)
    (tags : List String) (streams : List ProgressStream)
    (hne : resp.messages ≠ []) (heof : resp.err = .EOF)
    (hlast : (resp.messages.getLast hne).Error = "")
    (hlen : streams.length = tags.length)
    (hpush : ∀ (i : Nat) (tag : String) (p : ProgressStream),
      tags[i]? = some tag → streams[i]? = some p → node.Engine.ImagePush i tag = .ok p) :
    ∃ ch : Channel, pushImage resp node tags = .ok ch ∧
      ch.events = resp.messages.map Event.send ++
        (List.zipWith (fun tag p => Event.imagePush tag ::
          (p.messages.map Event.send ++
            [Event.send { Stream := "finished " ++ tag ++ "\n", Status := "finished",
                          Progress := tag }])) tags streams).flatten ++
        [.cleanup tags, .closeResp, .close] ∧
      sent ch.events = resp.messages ++
        (List.zipWith (fun tag p => p.messages ++
          [({ Stream := "finished " ++ tag ++ "\n", Status := "finished",
              Progress := tag } : BuildImageMessage)]) tags streams).flatten := by
  have hloop := pushLoop_all_started node.Engine tags 0 streams hlen (by
    intro j tag p ht hp
    simpa using hpush j tag p ht hp)
  refine ⟨_, pushImage_push_phase resp node tags hne heof hlast, ?_, ?_⟩
  · simp [hloop]
  · simp only [hloop, sent_append, sent_map_send]
    have hseg := sent_started_segments finishedMessage tags streams
    simp only [finishedMessage] at hseg
    rw [hseg]
    simp [sent]

/-- C1, at a concrete input: the build of two steps and the tags "a" and "b",
both pushed by the accepting engine. -/
theorem pushImage_relays_build_then_each_push_witness :
    ∃ ch : Channel, pushImage goodBuild acceptingNode ["a", "b"] = .ok ch ∧
      ch.events =
        [.send { Stream := "step1" }, .send { Stream := "step2" },
         .imagePush "a", .send { Status := "Pushed", Progress := "a" },
         .send { Stream := "finished a\n", Status := "finished", Progress := "a" },
         .imagePush "b", .send { Status := "Pushed", Progress := "b" },
         .send { Stream := "finished b\n", Status := "finished", Progress := "b" },
         .cleanup ["a", "b"], .closeResp, .close] ∧
      sent ch.events =
        [{ Stream := "step1" }, { Stream := "step2" },
         { Status := "Pushed", Progress := "a" },
         { Stream := "finished a\n", Status := "finished", Progress := "a" },
         { Status := "Pushed", Progress := "b" },
         { Stream := "finished b\n", Status := "finished", Progress := "b" }] := by
  have h := pushImage_relays_build_then_each_push goodBuild acceptingNode ["a", "b"]
    [samplePushStream "a", samplePushStream "b"] (by decide) rfl rfl rfl (by
      intro i tag p ht hp
      match i with
      | 0 => simp at ht hp; subst ht; subst hp; rfl
      | 1 => simp at ht hp; subst ht; subst hp; rfl
      | n + 2 => simp at ht)
  obtain ⟨ch, hch, hev, hsent⟩ := h
  refine ⟨ch, hch, ?_, ?_⟩
  · rw [hev]; decide
  · rw [hsent]; decide

/-- C2, as the code has it: when the build progress stream decodes to at least
one message, ends cleanly and its last message has a non-empty error field,
`pushImage` sends the decoded messages and nothing else, issues no push request
and launches no cleanup job; the stream and the channel are then closed. -/
theorem pushImage_failed_build_stops (resp : ProgressStream) (node : Node)
    (tags : List String) (hne : resp.messages ≠ []) (heof : resp.err = .EOF)
    (hlast : (resp.messages.getLast hne).Error ≠ "") :
    ∃ ch : Channel, pushImage resp node tags = .ok ch ∧
      ch.events = resp.messages.map Event.send ++ [.closeResp, .close] ∧
      ch.recovered = false ∧
      sent ch.events = resp.messages ∧ pushRequests ch.events = [] ∧
      cleanups ch.events = [] := by
  obtain ⟨messages, err⟩ := resp
  obtain ⟨front, m, hsplit, hm, _⟩ := exists_front_last messages hne
  simp only at heof hlast
  rw [hm] at hlast
  subst heof
  subst hsplit
  refine ⟨_, rfl, ?_, ?_, ?_, ?_, ?_⟩
  · simp [withImageBuiltChannel, SentryGo, pushImageTask_eof, hlast]
  · simp [withImageBuiltChannel, SentryGo, pushImageTask_eof, hlast]
  · simp [withImageBuiltChannel, SentryGo, pushImageTask_eof, hlast, sent_append,
      sent_map_send, sent]
  · simp [withImageBuiltChannel, SentryGo, pushImageTask_eof, hlast, pushRequests_append,
      pushRequests_map_send, pushRequests]
  · simp [withImageBuiltChannel, SentryGo, pushImageTask_eof, hlast, cleanups_append,
      cleanups_map_send, cleanups]

/-- C2, as the code has it, at a concrete input: a build whose last message
reports "exit 1", with the tags "a" and "b". -/
theorem pushImage_failed_build_stops_witness :
    ∃ ch : Channel, pushImage failedBuild acceptingNode ["a", "b"] = .ok ch ∧
      ch.events = [.send { Stream := "step1" }, .send { Error := "exit 1" },
        .closeResp, .close] ∧
      ch.recovered = false ∧
      sent ch.events = [{ Stream := "step1" }, { Error := "exit 1" }] ∧
      pushRequests ch.events = [] ∧ cleanups ch.events = [] :=
  pushImage_failed_build_stops failedBuild acceptingNode ["a", "b"] (by decide) rfl
    (by decide)

/-- C2 as stated fails: the build stream of `failedBuild` decodes to two
messages and ends cleanly, its last message has the error "exit 1", and
`pushImage` closes the channel without having launched any cleanup job. -/
theorem pushImage_failed_build_launches_no_cleanup :
    failedBuild.err = .EOF ∧
    (failedBuild.messages.getLast?.map (fun m => m.Error)) = some "exit 1" ∧
    ∃ ch : Channel, pushImage failedBuild acceptingNode ["a"] = .ok ch ∧
      ch.events.getLast? = some .close ∧
      ∀ ids : List String, Event.cleanup ids ∉ ch.events := by
  refine ⟨rfl, by decide, _, rfl, by decide, ?_⟩
  intro ids hmem
  simp [withImageBuiltChannel, SentryGo, pushImageTask, failedBuild, decodeLoop] at hmem

/-- C10: when the decode phase ends before any message was decoded, by a clean
end of stream or by the caller's cancellation or deadline error, the access to
the unset last-seen message faults; for every tag list `pushImage` sends no
message, issues no push request and launches no cleanup job; the panic is
recovered and the channel is closed. -/
theorem pushImage_empty_stream_faults (resp : ProgressStream) (node : Node)
    (tags : List String) (hempty : resp.messages = [])
    (herr : resp.err = .EOF ∨ resp.err = .Canceled ∨ resp.err = .DeadlineExceeded) :
    pushImageTask resp node tags =
      { events := [.closeResp], delivered := [], panicked := true } ∧
    ∃ ch : Channel, pushImage resp node tags = .ok ch ∧
      ch.events = [.closeResp, .close] ∧ ch.recovered = true ∧
      sent ch.events = [] ∧ pushRequests ch.events = [] ∧ cleanups ch.events = [] := by
  have htask : pushImageTask resp node tags =
      { events := [.closeResp], delivered := [], panicked := true } := by
    rcases herr with h | h | h <;> simp [pushImageTask, hempty, h, decodeLoop]
  refine ⟨htask, _, rfl, ?_, ?_⟩
  · simp [withImageBuiltChannel, SentryGo, htask]
  · simp [withImageBuiltChannel, SentryGo, htask, sent, pushRequests, cleanups]

/-- C10, at a concrete input: an empty build stream that ends cleanly, with the
tags "a" and "b". -/
theorem pushImage_empty_stream_faults_witness :
    pushImageTask { messages := [], err := .EOF } acceptingNode ["a", "b"] =
      { events := [.closeResp], delivered := [], panicked := true } ∧
    ∃ ch : Channel,
      pushImage { messages := [], err := .EOF } acceptingNode ["a", "b"] = .ok ch ∧
      ch.events = [.closeResp, .close] ∧ ch.recovered = true ∧
      sent ch.events = [] ∧ pushRequests ch.events = [] ∧ cleanups ch.events = [] :=
  pushImage_empty_stream_faults { messages := [], err := .EOF } acceptingNode ["a", "b"]
    rfl (Or.inl rfl)

/-- C3, as the code has it: on a tag list that reaches the push phase, when the
push request for the tag of index `i` fails to start, `pushImage` sends exactly
one message for that failure, with the failure text in its error field, and
goes on: the next event is the push request for tag `i + 1` (if there is one),
every tag is requested in input order, and tag `i + 1` gets its own completion
marker after its push messages when its own push request starts. -/
theorem pushImage_push_failure_is_per_tag (resp : ProgressStream) (node : Node)
    (tags : List String) (hne : resp.messages ≠ []) (heof : resp.err = .EOF)
    (hlast : (resp.messages.getLast hne).Error = "")
    (i : Nat) (tag err : String) (htag : tags[i]? = some tag)
    (hfail : node.Engine.ImagePush i tag = .error err) :
    ∃ (ch : Channel) (before after : List Event),
      pushImage resp node tags = .ok ch ∧
      ch.events = resp.messages.map Event.send ++ before ++
        [Event.imagePush tag, Event.send { Error := err }] ++ after ++
        [.cleanup tags, .closeResp, .close] ∧
      pushRequests before = tags.take i ∧
      pushRequests after = tags.drop (i + 1) ∧
      after.head? = (tags[i + 1]?).map Event.imagePush ∧
      pushRequests ch.events = tags ∧
      ∀ (next : String) (p : ProgressStream), tags[i + 1]? = some next →
        node.Engine.ImagePush (i + 1) next = .ok p →
        ∃ rest : List Event, after = Event.imagePush next ::
          (p.messages.map Event.send ++
            [Event.send { Stream := "finished " ++ next ++ "\n", Status := "finished",
                          Progress := next }]) ++ rest := by
  have hcut := pushLoop_at node.Engine tags i tag htag
  rw [hfail] at hcut
  refine ⟨_, pushLoop node.Engine 0 (tags.take i),
    pushLoop node.Engine (i + 1) (tags.drop (i + 1)),
    pushImage_push_phase resp node tags hne heof hlast, ?_, ?_, ?_, ?_, ?_, ?_⟩
  · simp [hcut]
  · exact pushRequests_pushLoop _ _ _
  · exact pushRequests_pushLoop _ _ _
  · rw [pushLoop_head?, List.head?_drop]
  · simp [pushRequests_append, pushRequests_map_send, pushRequests_pushLoop, pushRequests]
  · intro next p hnext hok
    rw [drop_of_getElem? tags (i + 1) next hnext]
    exact ⟨pushLoop node.Engine (i + 1 + 1) (tags.drop (i + 1 + 1)), by
      simp [pushLoop, hok, processBuildImageStream, finishedMessage]⟩

/-- C3, as the code has it, at a concrete input: the flaky engine refuses the
push of "a" and grants the push of "b". -/
theorem pushImage_push_failure_is_per_tag_witness :
    ∃ (ch : Channel) (before after : List Event),
      pushImage goodBuild flakyNode ["a", "b"] = .ok ch ∧
      ch.events = goodBuild.messages.map Event.send ++ before ++
        [Event.imagePush "a", Event.send { Error := "denied" }] ++ after ++
        [.cleanup ["a", "b"], .closeResp, .close] ∧
      pushRequests before = ["a", "b"].take 0 ∧
      pushRequests after = ["a", "b"].drop (0 + 1) ∧
      after.head? = (["a", "b"][0 + 1]?).map Event.imagePush ∧
      pushRequests ch.events = ["a", "b"] ∧
      ∀ (next : String) (p : ProgressStream), ["a", "b"][0 + 1]? = some next →
        flakyNode.Engine.ImagePush (0 + 1) next = .ok p →
        ∃ rest : List Event, after = Event.imagePush next ::
          (p.messages.map Event.send ++
            [Event.send { Stream := "finished " ++ next ++ "\n", Status := "finished",
                          Progress := next }]) ++ rest :=
  pushImage_push_failure_is_per_tag goodBuild flakyNode ["a", "b"] (by decide) rfl rfl
    0 "a" "denied" rfl rfl

/-- C3 as stated fails: with the refusing engine the push request for "a"
(index 0) fails to start, the push for "b" (index 1) is still requested, and no
message with status "finished" is sent at all: tag "b", whose request fails as
well, gets no completion marker. -/
theorem pushImage_next_failed_tag_has_no_marker :
    refusingNode.Engine.ImagePush 0 "a" = .error "denied" ∧
    ∃ ch : Channel, pushImage goodBuild refusingNode ["a", "b"] = .ok ch ∧
      pushRequests ch.events = ["a", "b"] ∧
      ∀ m ∈ sent ch.events, m.Status ≠ "finished" := by
  refine ⟨rfl, _, rfl, by decide, by decide⟩

/-- C4, as the code has it: on a tag list of length K that reaches the push
phase, for every pattern of push outcomes, the push phase of `pushImage` is K
segments, one per tag in input order: for a tag whose push request starts, the
request, the messages of its push stream and then the completion message
(status "finished"); for a tag whose push request fails to start, the request
and one error message, without a completion message. -/
theorem pushImage_marker_per_started_push (resp : ProgressStream) (node : Node)
    (tags : List String) (hne : resp.messages ≠ []) (heof : resp.err = .EOF)
    (hlast : (resp.messages.getLast hne).Error = "") :
    ∃ (ch : Channel) (segments : List (List Event)),
      pushImage resp node tags = .ok ch ∧
      ch.events = resp.messages.map Event.send ++ segments.flatten ++
        [.cleanup tags, .closeResp, .close] ∧
      segments.length = tags.length ∧
      ∀ (i : Nat) (tag : String), tags[i]? = some tag →
        (∀ p : ProgressStream, node.Engine.ImagePush i tag = .ok p →
          segments[i]? = some (Event.imagePush tag ::
            (p.messages.map Event.send ++
              [Event.send { Stream := "finished " ++ tag ++ "\n", Status := "finished",
                            Progress := tag }]))) ∧
        (∀ err : String, node.Engine.ImagePush i tag = .error err →
          segments[i]? = some [Event.imagePush tag, Event.send { Error := err }]) := by
  obtain ⟨segments, hflat, hlen, hseg⟩ := pushLoop_segments node.Engine tags 0
  refine ⟨_, segments, pushImage_push_phase resp node tags hne heof hlast, ?_, hlen, ?_⟩
  · simp [hflat]
  · intro i tag htag
    have h := hseg i tag htag
    simpa [finishedMessage] using h

/-- C4, as the code has it, at a concrete input: the flaky engine and the tags
"a" and "b". -/
theorem pushImage_marker_per_started_push_witness :
    ∃ (ch : Channel) (segments : List (List Event)),
      pushImage goodBuild flakyNode ["a", "b"] = .ok ch ∧
      ch.events = goodBuild.messages.map Event.send ++ segments.flatten ++
        [.cleanup ["a", "b"], .closeResp, .close] ∧
      segments.length = ["a", "b"].length ∧
      ∀ (i : Nat) (tag : String), ["a", "b"][i]? = some tag →
        (∀ p : ProgressStream, flakyNode.Engine.ImagePush i tag = .ok p →
          segments[i]? = some (Event.imagePush tag ::
            (p.messages.map Event.send ++
              [Event.send { Stream := "finished " ++ tag ++ "\n", Status := "finished",
                            Progress := tag }]))) ∧
        (∀ err : String, flakyNode.Engine.ImagePush i tag = .error err →
          segments[i]? = some [Event.imagePush tag, Event.send { Error := err }]) :=
  pushImage_marker_per_started_push goodBuild flakyNode ["a", "b"] (by decide) rfl rfl

/-- C4 as stated fails: with the flaky engine and the two tags "a" and "b",
the push of "a" fails to start and `pushImage` sends one message with status
"finished", the one of "b", not two. -/
theorem pushImage_failed_push_has_no_marker :
    ["a", "b"].length = 2 ∧
    ∃ ch : Channel, pushImage goodBuild flakyNode ["a", "b"] = .ok ch ∧
      (sent ch.events).filter (fun m => m.Status = "finished") =
        [{ Stream := "finished b\n", Status := "finished", Progress := "b" }] := by
  refine ⟨rfl, _, rfl, by decide⟩

/-- C9, as the code has it: for every tag whose push stream was obtained, the
completion message `pushImage` sends right after the messages of that push
stream has stream text "finished ", the tag and a line feed, status "finished",
progress equal to the tag, and empty identifier, error and error-detail
fields. -/
theorem pushImage_finished_message_fields (resp : ProgressStream) (node : Node)
    (tags : List String) (hne : resp.messages ≠ []) (heof : resp.err = .EOF)
    (hlast : (resp.messages.getLast hne).Error = "")
    (i : Nat) (tag : String) (p : ProgressStream) (htag : tags[i]? = some tag)
    (hok : node.Engine.ImagePush i tag = .ok p) :
    ∃ (ch : Channel) (before after : List Event) (m : BuildImageMessage),
      pushImage resp node tags = .ok ch ∧
      ch.events = before ++
        Event.imagePush tag :: (p.messages.map Event.send ++ [Event.send m]) ++ after ∧
      pushRequests before = tags.take i ∧
      m.Stream = "finished " ++ tag ++ "\n" ∧ m.Status = "finished" ∧
      m.Progress = tag ∧ m.Error = "" ∧ m.ErrorDetail = { Code := 0, Message := "" } ∧
      m.ID = "" := by
  have hcut := pushLoop_at node.Engine tags i tag htag
  rw [hok] at hcut
  refine ⟨_, resp.messages.map Event.send ++ pushLoop node.Engine 0 (tags.take i),
    pushLoop node.Engine (i + 1) (tags.drop (i + 1)) ++ [.cleanup tags, .closeResp, .close],
    finishedMessage tag,
    pushImage_push_phase resp node tags hne heof hlast, ?_, ?_, rfl, rfl, rfl, rfl, rfl, rfl⟩
  · simp [hcut, processBuildImageStream]
  · simp [pushRequests_append, pushRequests_map_send, pushRequests_pushLoop]

/-- C9, as the code has it, at a concrete input: the tag "b", second of two,
pushed by the accepting engine. -/
theorem pushImage_finished_message_fields_witness :
    ∃ (ch : Channel) (before after : List Event) (m : BuildImageMessage),
      pushImage goodBuild acceptingNode ["a", "b"] = .ok ch ∧
      ch.events = before ++
        Event.imagePush "b" ::
          ((samplePushStream "b").messages.map Event.send ++ [Event.send m]) ++ after ∧
      pushRequests before = ["a", "b"].take 1 ∧
      m.Stream = "finished " ++ "b" ++ "\n" ∧ m.Status = "finished" ∧
      m.Progress = "b" ∧ m.Error = "" ∧ m.ErrorDetail = { Code := 0, Message := "" } ∧
      m.ID = "" :=
  pushImage_finished_message_fields goodBuild acceptingNode ["a", "b"] (by decide) rfl rfl
    1 "b" (samplePushStream "b") rfl rfl

/-- C9 as stated fails: for the tag "a", pushed by the accepting engine, the
completion message has the stream text "finished a" followed by a line feed, and
no message sent has the stream text "finished a". -/
theorem pushImage_finished_stream_ends_with_newline :
    ∃ ch : Channel, pushImage goodBuild acceptingNode ["a"] = .ok ch ∧
      (sent ch.events).getLast? =
        some { Stream := "finished a\n", Status := "finished", Progress := "a" } ∧
      ∀ m ∈ sent ch.events, m.Stream ≠ "finished " ++ "a" := by
  refine ⟨_, rfl, by decide, by decide⟩

/-- C6, as the code has it: when a source-control capability is configured and
no build pod is, `BuildImage` returns the error `ErrNoBuildPod` and no channel,
for every build method and every other configuration. -/
theorem BuildImage_no_build_pod (c : Calcium) (opts : BuildOptions) (source : Source)
    (hsource : c.source = some source) (hpod : c.BuildPod = "") :
    BuildImage c opts = some (.error .ErrNoBuildPod) := by
  simp [BuildImage, hsource, selectBuildNode, hpod]

/-- C6, as the code has it, at a concrete input: a source-control capability,
no build pod, a request to build from a raw context. -/
theorem BuildImage_no_build_pod_witness :
    BuildImage (sampleCalcium (some { handle := 1 }) "") rawRequest =
      some (.error .ErrNoBuildPod) :=
  BuildImage_no_build_pod (sampleCalcium (some { handle := 1 }) "") rawRequest
    { handle := 1 } rfl rfl

/-- C6 as stated fails: with no build pod and no source-control capability,
`BuildImage` returns `ErrSCMNotSet`, not `ErrNoBuildPod`, here for a request to
build from a raw context. -/
theorem BuildImage_no_source_wins_over_no_build_pod :
    (sampleCalcium none "").BuildPod = "" ∧
    BuildImage (sampleCalcium none "") rawRequest = some (.error .ErrSCMNotSet) ∧
    BuildImage (sampleCalcium none "") rawRequest ≠ some (.error .ErrNoBuildPod) := by
  refine ⟨rfl, rfl, ?_⟩
  simp [BuildImage, sampleCalcium]

/-- C7: `buildFromExist` returns a channel and no error, and exactly one message
is sent on the channel before it is closed.  When resolving the node of the
workload fails, or deriving the image fails, the message has the failure text
in its error field and in its error-detail message and no cleanup job is
launched; when both succeed the message carries the new image identifier, all
other fields empty, and one cleanup job is launched, for that identifier. -/
theorem buildFromExist_sends_one_message (getWorkloadNode : String → Except String Node)
    (ref existID user : String) :
    ∃ ch : Channel, buildFromExist getWorkloadNode ref existID user = .ok ch ∧
      ch.recovered = false ∧ (sent ch.events).length = 1 ∧
      ch.events.getLast? = some .close ∧
      (∀ err : String, getWorkloadNode existID = .error err →
        sent ch.events = [{ Error := err, ErrorDetail := { Code := 0, Message := err } }] ∧
        cleanups ch.events = []) ∧
      (∀ (node : Node) (err : String), getWorkloadNode existID = .ok node →
        node.Engine.ImageBuildFromExist existID ref user = .error err →
        sent ch.events = [{ Error := err, ErrorDetail := { Code := 0, Message := err } }] ∧
        cleanups ch.events = []) ∧
      (∀ (node : Node) (imageID : String), getWorkloadNode existID = .ok node →
        node.Engine.ImageBuildFromExist existID ref user = .ok imageID →
        sent ch.events = [{ ID := imageID }] ∧ cleanups ch.events = [[imageID]]) := by
  refine ⟨_, rfl, ?_⟩
  cases hnode : getWorkloadNode existID with
  | error err =>
    have hch : withImageBuiltChannel (buildFromExistTask getWorkloadNode ref existID user) =
        ⟨[.send (buildErrMsg err), .close], [buildErrMsg err], false⟩ := by
      simp [withImageBuiltChannel, SentryGo, buildFromExistTask, hnode]
    rw [hch]
    refine ⟨rfl, rfl, rfl, ?_, ?_, ?_⟩
    · intro err2 h
      cases h
      exact ⟨rfl, rfl⟩
    · intro node err2 h
      cases h
    · intro node imageID h
      cases h
  | ok node =>
    cases himage : node.Engine.ImageBuildFromExist existID ref user with
    | error err =>
      have hch : withImageBuiltChannel (buildFromExistTask getWorkloadNode ref existID user) =
          ⟨[.send (buildErrMsg err), .close], [buildErrMsg err], false⟩ := by
        simp [withImageBuiltChannel, SentryGo, buildFromExistTask, hnode, himage]
      rw [hch]
      refine ⟨rfl, rfl, rfl, ?_, ?_, ?_⟩
      · intro err2 h
        cases h
      · intro node2 err2 hnode2 himage2
        cases hnode2
        rw [himage] at himage2
        cases himage2
        exact ⟨rfl, rfl⟩
      · intro node2 imageID hnode2 himage2
        cases hnode2
        rw [himage] at himage2
        cases himage2
    | ok imageID =>
      have hch : withImageBuiltChannel (buildFromExistTask getWorkloadNode ref existID user) =
          ⟨[.cleanup [imageID], .send { ID := imageID }, .close], [{ ID := imageID }], false⟩ := by
        simp [withImageBuiltChannel, SentryGo, buildFromExistTask, hnode, himage]
      rw [hch]
      refine ⟨rfl, rfl, rfl, ?_, ?_, ?_⟩
      · intro err2 h
        cases h
      · intro node2 err hnode2 himage2
        cases hnode2
        rw [himage] at himage2
        cases himage2
      · intro node2 imageID2 hnode2 himage2
        cases hnode2
        rw [himage] at himage2
        cases himage2
        exact ⟨rfl, rfl⟩

/-- C7, at a concrete input: the workload "w1" runs on the accepting node, which
derives the image "sha256:app:v1". -/
theorem buildFromExist_sends_one_message_witness :
    ∃ ch : Channel,
      buildFromExist (fun _ => .ok acceptingNode) "app:v1" "w1" "root" = .ok ch ∧
      sent ch.events = [{ ID := "sha256:app:v1" }] ∧
      cleanups ch.events = [["sha256:app:v1"]] := by
  obtain ⟨ch, hch, _, _, _, _, _, hok⟩ :=
    buildFromExist_sends_one_message (fun _ => .ok acceptingNode) "app:v1" "w1" "root"
  have h := hok acceptingNode "sha256:app:v1" rfl rfl
  exact ⟨ch, hch, h.1, h.2⟩

/-- C8, as the code has it: for every list of identifiers and every pattern of
removal failures, the requests `cleanupNodeImages` makes to the engine are one
image removal per identifier, in list order, each with the force flag unset and
the prune flag set, followed by one build-cache prune; a failed removal stops
neither the later removals nor the prune. -/
theorem cleanupNodeImages_requests (node : Node) (ids : List String) :
    engineRequests (cleanupNodeImages node ids) =
      ids.map (fun id => CleanupEvent.imageRemove id false true) ++
        [CleanupEvent.imageBuildCachePrune true] := by
  cases h : node.Engine.ImageBuildCachePrune true <;>
    simp [cleanupNodeImages, h, engineRequests_append, engineRequests_removeLoop,
      engineRequests]

/-- C8, as the code has it, at a concrete input: the flaky engine fails the
first removal, the refusing engine fails every request. -/
theorem cleanupNodeImages_requests_witness :
    cleanupNodeImages flakyNode ["a", "b"] =
      [.imageRemove "a" false true, .logRemoveError "denied", .imageRemove "b" false true,
       .imageBuildCachePrune true, .logReclaimed 42] ∧
    engineRequests (cleanupNodeImages refusingNode ["a", "b"]) =
      [.imageRemove "a" false true, .imageRemove "b" false true,
       .imageBuildCachePrune true] :=
  ⟨by decide, cleanupNodeImages_requests refusingNode ["a", "b"]⟩

/-- C8 as stated fails: for the identifier "a" the one removal request
`cleanupNodeImages` makes has the force flag unset; no request is a forced
removal. -/
theorem cleanupNodeImages_removal_is_not_forced :
    engineRequests (cleanupNodeImages acceptingNode ["a"]) =
      [.imageRemove "a" false true, .imageBuildCachePrune true] ∧
    CleanupEvent.imageRemove "a" true true ∉ cleanupNodeImages acceptingNode ["a"] ∧
    CleanupEvent.imageRemove "a" true false ∉ cleanupNodeImages acceptingNode ["a"] := by
  refine ⟨by decide, by decide, by decide⟩

end CalciumBuild
